import Mathlib

/-!
Verification development for the LangGraph helpdesk/memory agent.

Shallow embedding of the memory subsystem (`memoryStore.ts`, `memoryManager.ts`)
and the phase-routed agent nodes (`src/agent/nodes.ts`).  External collaborators
(the LLM "Oracle", the archive vector index, the tokenizer) are modelled as
explicit parameters: an `Oracle` is the function from prompt text to the reply
text (or a thrown error, `Except.error`), the tokenizer is a function
`String → Nat`, and the archive index search result is passed in as data.

JavaScript semantics that matter for the claims are modelled explicitly:
string truthiness (empty string is falsy), `parseFloat` (NaN on non-numeric
input), `Math.min`/`Math.max` NaN propagation, and object spread order.
-/

namespace LangGraphAgent

/-! ### JS string primitives (modelled on `List Char`, so they compute in the kernel) -/

/-- Whitespace characters recognised by JS `trim`/`parseFloat` (ASCII subset). -/
def isWsChar (c : Char) : Bool :=
  c = ' ' || c = '\t' || c = '\n' || c = '\r' || c = '\x0b' || c = '\x0c'

/-- Drop whitespace from both ends of a char list. -/
def trimChars (cs : List Char) : List Char :=
  ((cs.dropWhile isWsChar).reverse.dropWhile isWsChar).reverse

/-- Models JS `String.prototype.trim`. -/
def jsTrim (s : String) : String :=
  String.mk (trimChars s.data)

/-- Models JS `String.prototype.toLowerCase` (ASCII). -/
def jsToLower (s : String) : String :=
  String.mk (s.data.map Char.toLower)

/-- Does `pat` occur at the start of `cs`? -/
def listStarts : List Char → List Char → Bool
  | [], _ => true
  | _ :: _, [] => false
  | p :: ps, c :: cs => p = c && listStarts ps cs

/-- Does `pat` occur anywhere in `cs`? -/
def occursIn (pat : List Char) : List Char → Bool
  | [] => listStarts pat []
  | c :: cs => listStarts pat (c :: cs) || occursIn pat cs

/-- Models JS `String.prototype.includes`. -/
def hasSub (s pat : String) : Bool :=
  occursIn pat.data s.data

/-! ### JS numbers

A JS double as far as the code under scrutiny needs it: NaN, the two
infinities, and finite values (every finite value produced by the code is a
decimal, hence exactly representable as a rational). -/

inductive JsNum where
  | nan : JsNum
  | inf : JsNum
  | negInf : JsNum
  | num : Rat → JsNum
deriving DecidableEq, Repr

/-- Models `Math.min(b, x)` with a finite first argument: NaN propagates. -/
def jsMinConst (b : Rat) : JsNum → JsNum
  | .nan => .nan
  | .inf => .num b
  | .negInf => .negInf
  | .num x => .num (min b x)

/-- Models `Math.max(a, x)` with a finite first argument: NaN propagates. -/
def jsMaxConst (a : Rat) : JsNum → JsNum
  | .nan => .nan
  | .inf => .inf
  | .negInf => .num a
  | .num x => .num (max a x)

/-- Models the JS comparison `x < b` for a finite `b`: false when `x` is NaN. -/
def JsNum.ltR (x : JsNum) (b : Rat) : Bool :=
  match x with
  | .nan => false
  | .inf => false
  | .negInf => true
  | .num q => decide (q < b)

/-- Value of a digit string. -/
def digitsVal (cs : List Char) : Nat :=
  cs.foldl (fun n c => 10 * n + (c.toNat - 48)) 0

/-- Exponent part of a JS float literal, after an `e`/`E` has been consumed:
optional sign then digits; an incomplete exponent is ignored (contributes 0),
as in JS `parseFloat`. -/
def parseExpBody (r : List Char) : Int :=
  let signed : Int × List Char :=
    match r with
    | '-' :: t => (-1, t)
    | '+' :: t => (1, t)
    | t => (1, t)
  let ds := signed.2.takeWhile Char.isDigit
  if ds.isEmpty then 0 else signed.1 * (digitsVal ds : Int)

/-- Exponent suffix of a JS float literal (0 when absent). -/
def parseExp : List Char → Int
  | 'e' :: r => parseExpBody r
  | 'E' :: r => parseExpBody r
  | _ => 0

/-- Models JS `parseFloat`: skip leading whitespace, optional sign,
`Infinity`, or a decimal mantissa with optional exponent; NaN when no
numeric prefix exists.  The no-fraction and zero-exponent cases are
special-cased so the result needs no rational division (same value). -/
def parseFloat (s : String) : JsNum :=
  let cs := s.data.dropWhile isWsChar
  let signed : Int × List Char :=
    match cs with
    | '-' :: t => (-1, t)
    | '+' :: t => (1, t)
    | t => (1, t)
  let cs1 := signed.2
  if listStarts ['I', 'n', 'f', 'i', 'n', 'i', 't', 'y'] cs1 then
    if signed.1 = 1 then .inf else .negInf
  else
    let intDs := cs1.takeWhile Char.isDigit
    let cs2 := cs1.drop intDs.length
    let fracDs :=
      match cs2 with
      | '.' :: t => t.takeWhile Char.isDigit
      | _ => []
    let cs3 :=
      match cs2 with
      | '.' :: t => t.drop fracDs.length
      | _ => cs2
    if intDs.isEmpty && fracDs.isEmpty then .nan
    else
      let e := parseExp cs3
      let base : Rat :=
        if fracDs.isEmpty then (digitsVal intDs : Rat)
        else (digitsVal (intDs ++ fracDs) : Rat) / ((10 : Rat) ^ fracDs.length)
      let mant : Rat := if signed.1 = 1 then base else -base
      if e = 0 then .num mant else .num (mant * (10 : Rat) ^ e)

/-! ### Memory store (`memoryStore.ts`)

Rows live in a SQLite table; we model the table as a list of rows plus the
autoincrement counter.  Metadata is `map<string, any>` in the source, only
ever populated with string/number leaves in this codebase; we model it as an
association list of string pairs (the `JSON.stringify`/`JSON.parse` round
trip through the TEXT column is the identity on such values). -/

inductive MemoryType where
  | interaction : MemoryType
  | fact : MemoryType
  | preference : MemoryType
deriving DecidableEq, Repr

/-- A stored row / `Memory` record (rows always carry an id). -/
structure Memory where
  id : Nat
  content : String
  timestamp : String
  importanceScore : JsNum
  memoryType : MemoryType
  isArchived : Bool
  metadata : List (String × String)
deriving DecidableEq, Repr

/-- A `Memory` before insertion (`Omit<Memory, "id">`). -/
structure MemoryData where
  content : String
  timestamp : String
  importanceScore : JsNum
  memoryType : MemoryType
  isArchived : Bool
  metadata : List (String × String)
deriving DecidableEq, Repr

/-- The SQLite table of `memoryStore.ts`: rows plus the AUTOINCREMENT counter. -/
structure StoreState where
  rows : List Memory
  nextId : Nat
deriving DecidableEq, Repr

/-- The empty store (fresh database). -/
def StoreState.empty : StoreState := ⟨[], 0⟩

/-- Models the successful path of `addMemory`: INSERT a row, returning
`lastInsertRowid`.  The source's `stmt.run` throws when the bound
`importance_score` is NaN (SQLite converts a bound NaN to NULL and the column
is declared `REAL NOT NULL`), so a NaN-scored row can never actually be
created; that throwing path is modelled by the guard in `addInteractionGo`
below, and this total function is used where the insert succeeds. -/
def addMemory (s : StoreState) (d : MemoryData) : Nat × StoreState :=
  let row : Memory :=
    { id := s.nextId, content := d.content, timestamp := d.timestamp,
      importanceScore := d.importanceScore, memoryType := d.memoryType,
      isArchived := d.isArchived, metadata := d.metadata }
  (s.nextId, { rows := s.rows ++ [row], nextId := s.nextId + 1 })

/-- `ORDER BY timestamp DESC` comparison (SQLite compares TEXT bytewise). -/
def tsDesc (a b : Memory) : Prop := b.timestamp ≤ a.timestamp

/-- `timestamp` ascending comparison (used by consolidation, which sorts with
`a.timestamp.localeCompare(b.timestamp)`). -/
def tsAsc (a b : Memory) : Prop := a.timestamp ≤ b.timestamp

instance : DecidableRel tsDesc := fun a b => inferInstanceAs (Decidable (b.timestamp ≤ a.timestamp))

instance : DecidableRel tsAsc := fun a b => inferInstanceAs (Decidable (a.timestamp ≤ b.timestamp))

instance : IsTotal Memory tsDesc := ⟨fun a b => le_total b.timestamp a.timestamp⟩

instance : IsTrans Memory tsDesc := ⟨fun _ _ _ h1 h2 => le_trans h2 h1⟩

instance : IsTotal Memory tsAsc := ⟨fun a b => le_total a.timestamp b.timestamp⟩

instance : IsTrans Memory tsAsc := ⟨fun _ _ _ h1 h2 => le_trans h1 h2⟩

/-- Models `getActiveMemories`: `SELECT ... WHERE is_archived = 0 ORDER BY
timestamp DESC [LIMIT n]`. -/
def getActiveMemories (s : StoreState) (limit : Option Nat) : List Memory :=
  let sorted := (s.rows.filter (fun m => !m.isArchived)).insertionSort tsDesc
  match limit with
  | some n => sorted.take n
  | none => sorted

/-- Models `getArchivedMemories`: same query with `is_archived = 1`. -/
def getArchivedMemories (s : StoreState) (limit : Option Nat) : List Memory :=
  let sorted := (s.rows.filter (fun m => m.isArchived)).insertionSort tsDesc
  match limit with
  | some n => sorted.take n
  | none => sorted

/-- Models `archiveMemories`: `UPDATE memories SET is_archived = 1 WHERE id IN (...)`
(no-op on an empty id list). -/
def archiveMemories (s : StoreState) (memoryIds : List Nat) : StoreState :=
  if memoryIds.isEmpty then s
  else
    { s with rows := s.rows.map (fun m =>
        if decide (m.id ∈ memoryIds) then { m with isArchived := true } else m) }

/-- Models `updateImportanceScore`: `UPDATE memories SET importance_score = ? WHERE id = ?`. -/
def updateImportanceScore (s : StoreState) (memoryId : Nat) (newScore : JsNum) : StoreState :=
  { s with rows := s.rows.map (fun m =>
      if m.id = memoryId then { m with importanceScore := newScore } else m) }

/-- Models `getMemoryCount`: `SELECT COUNT(*)`, optionally filtered by the archive flag. -/
def getMemoryCount (s : StoreState) (isArchived : Option Bool) : Nat :=
  match isArchived with
  | none => s.rows.length
  | some b => (s.rows.filter (fun m => m.isArchived = b)).length

/-- Models `clearAllMemories`: `DELETE FROM memories`. -/
def clearAllMemories (s : StoreState) : StoreState :=
  { s with rows := [] }

/-- Number of active (non-archived) rows in the store. -/
def activeCount (s : StoreState) : Nat :=
  (s.rows.filter (fun m => !m.isArchived)).length

/-- The public operations of `MemoryStore`, as one step type.  Retrieval and
count operations read the store without mutating it; they are included (as
identity steps on the state) so that claims about "every sequence of store
operations" quantify over them too. -/
inductive StoreOp where
  | add (d : MemoryData) : StoreOp
  | archive (ids : List Nat) : StoreOp
  | updateScore (id : Nat) (score : JsNum) : StoreOp
  | getActive (limit : Option Nat) : StoreOp
  | getArchived (limit : Option Nat) : StoreOp
  | search (query : String) (isArchived : Option Bool) (limit : Nat) : StoreOp
  | count (isArchived : Option Bool) : StoreOp
  | clear : StoreOp
deriving DecidableEq, Repr

/-- State effect of one store operation. -/
def applyOp (s : StoreState) : StoreOp → StoreState
  | .add d => (addMemory s d).2
  | .archive ids => archiveMemories s ids
  | .updateScore id score => updateImportanceScore s id score
  | .getActive _ => s
  | .getArchived _ => s
  | .search _ _ _ => s
  | .count _ => s
  | .clear => clearAllMemories s

/-- State effect of a sequence of store operations. -/
def applySeq (s : StoreState) (ops : List StoreOp) : StoreState :=
  ops.foldl applyOp s

/-- Store well-formedness: row ids are distinct and below the autoincrement
counter.  This holds for every store built by the operations from an empty
database (ids are assigned by AUTOINCREMENT). -/
def WF (s : StoreState) : Prop :=
  (s.rows.map Memory.id).Nodup ∧ ∀ m ∈ s.rows, m.id < s.nextId

instance : DecidablePred WF := fun s =>
  inferInstanceAs (Decidable ((s.rows.map Memory.id).Nodup ∧ ∀ m ∈ s.rows, m.id < s.nextId))

/-! ### Memory manager (`memoryManager.ts`)

The LLM collaborator (`this.llm.invoke`) is an `Oracle`: a function from the
prompt text to either the reply text or a thrown error.  Prompt texts are
abbreviated (exact prompt wording is a declared non-goal of the spec); what
matters for the claims is which argument each prompt is built from. -/

structure Oracle where
  complete : String → Except Unit String

/-- Prompt of `extractPersonalInformation` (built from the user message only). -/
def extractionPromptFor (userMessage : String) : String :=
  "Analyze the following user message and extract ONLY personal information " ++
  "that should be remembered long-term. If there is NO personal information, " ++
  "respond with exactly: NONE. User message: " ++ userMessage

/-- Prompt of `scoreImportance` (built from the extracted summary). -/
def scoringPromptFor (content : String) : String :=
  "Rate the importance of remembering the following personal information on " ++
  "a scale of 1-10. Respond with ONLY a number between 1 and 10. Information: " ++ content

/-- Models `extractPersonalInformation`: Oracle call, `trim`, the NONE check;
a thrown Oracle error degrades to `null`. -/
def extractPersonalInformation (oracle : Oracle) (userMessage : String) : Option String :=
  match oracle.complete (extractionPromptFor userMessage) with
  | .error _ => none
  | .ok content =>
    let result := jsTrim content
    if result = "NONE" || hasSub (jsToLower result) "no personal information" then none
    else some result

/-- Models `scoreImportance`: `parseFloat` of the trimmed reply clamped with
`Math.max(1.0, Math.min(10.0, score))`; a thrown Oracle error defaults to 7.0. -/
def scoreImportance (oracle : Oracle) (content : String) : JsNum :=
  match oracle.complete (scoringPromptFor content) with
  | .error _ => .num 7
  | .ok reply => jsMaxConst 1 (jsMinConst 10 (parseFloat (jsTrim reply)))

/-- The `MemoryManager` constructor parameters, plus the tokenizer
(`tiktoken.encode(content).length`) as an opaque token-count function. -/
structure ManagerConfig where
  maxActiveMemories : Nat := 10
  importanceThreshold : Rat := 5
  maxContextLength : Nat := 4000
  consolidationTrigger : Rat := 8 / 10
  countTokens : String → Nat

/-- Strategy 1 of `consolidateMemories`: the `lowImportance` list
(`importanceScore < importanceThreshold`, with the JS `<` that is false on
NaN). -/
def lowImportanceOf (cfg : ManagerConfig) (activeMemories : List Memory) : List Memory :=
  activeMemories.filter (fun m => m.importanceScore.ltR cfg.importanceThreshold)

/-- The `remaining` list of `consolidateMemories`: active memories not already
picked by strategy 1 (`!memoriesToArchive.includes(m)`). -/
def remainingOf (cfg : ManagerConfig) (activeMemories : List Memory) : List Memory :=
  activeMemories.filter (fun m => !(decide (m ∈ lowImportanceOf cfg activeMemories)))

/-- The `memoriesToArchive` computation of `consolidateMemories`: strategy 1
archives all active entries below the importance threshold; strategy 2, when
the remainder still exceeds `maxActiveMemories`, additionally archives the
oldest of the remainder (sorted by ascending timestamp). -/
def selectMemoriesToArchive (cfg : ManagerConfig) (activeMemories : List Memory) : List Memory :=
  let memoriesToArchive := lowImportanceOf cfg activeMemories
  let remaining := remainingOf cfg activeMemories
  if remaining.length > cfg.maxActiveMemories then
    let remainingSorted := remaining.insertionSort tsAsc
    memoriesToArchive ++ remainingSorted.take (remaining.length - cfg.maxActiveMemories)
  else
    memoriesToArchive

/-- Models `consolidateMemories` (the archive-index rebuild is an external
side effect on the index collaborator, not on the store). -/
def consolidateMemories (cfg : ManagerConfig) (s : StoreState) : StoreState :=
  let activeMemories := getActiveMemories s none
  if activeMemories.isEmpty then s
  else
    let memoriesToArchive := selectMemoriesToArchive cfg activeMemories
    if memoriesToArchive.isEmpty then s
    else archiveMemories s (memoriesToArchive.map Memory.id)

/-- Models `checkAndConsolidate`: consolidate when the active count exceeds
`maxActiveMemories`, or when the active token total exceeds
`maxContextLength * consolidationTrigger`. -/
def checkAndConsolidate (cfg : ManagerConfig) (s : StoreState) : StoreState :=
  let activeMemories := getActiveMemories s none
  if activeMemories.length > cfg.maxActiveMemories then
    consolidateMemories cfg s
  else
    let totalTokens := (activeMemories.map (fun m => cfg.countTokens m.content)).sum
    if (totalTokens : Rat) > (cfg.maxContextLength : Rat) * cfg.consolidationTrigger then
      consolidateMemories cfg s
    else s

/-- Models `addInteraction`: extract personal info (null when none), score it,
insert a `preference` memory with `isArchived = false`, then run the
consolidation check.  The `_agentResponse` argument is unused, exactly as in
the source (`_agentResponse`).  `now` is the `new Date().toISOString()` value.
This total function covers the non-throwing paths; `addInteractionRun` below
additionally models the INSERT failure on a NaN score. -/
def addInteraction (cfg : ManagerConfig) (oracle : Oracle) (s : StoreState)
    (userMessage : String) (_agentResponse : String)
    (metadata : List (String × String)) (now : String) : Option Memory × StoreState :=
  match extractPersonalInformation oracle userMessage with
  | none => (none, s)
  | some personalInfo =>
    let importance := scoreImportance oracle personalInfo
    let d : MemoryData :=
      { content := personalInfo, timestamp := now, importanceScore := importance,
        memoryType := .preference, isArchived := false, metadata := metadata }
    let inserted := addMemory s d
    let s2 := checkAndConsolidate cfg inserted.2
    (some { id := inserted.1, content := d.content, timestamp := d.timestamp,
            importanceScore := d.importanceScore, memoryType := d.memoryType,
            isArchived := d.isArchived, metadata := d.metadata }, s2)

/-- Continuation of `addInteraction` after the extraction step, with the
INSERT modelled fallibly: SQLite converts a bound NaN to NULL and
`importance_score` is `REAL NOT NULL`, so the `stmt.run` inside `addMemory`
throws exactly when the score is NaN, and `addInteraction` has no try/catch
around the insert, so the error propagates out of the call.  On a non-NaN
score this is the successful path of `addInteraction`. -/
def addInteractionGo (cfg : ManagerConfig) (oracle : Oracle) (s : StoreState)
    (metadata : List (String × String)) (now : String) :
    Option String → Except Unit (Option Memory × StoreState)
  | none => .ok (none, s)
  | some personalInfo =>
    let importance := scoreImportance oracle personalInfo
    if importance = .nan then .error ()
    else
      let d : MemoryData :=
        { content := personalInfo, timestamp := now, importanceScore := importance,
          memoryType := .preference, isArchived := false, metadata := metadata }
      let inserted := addMemory s d
      let s2 := checkAndConsolidate cfg inserted.2
      .ok (some { id := inserted.1, content := d.content, timestamp := d.timestamp,
                  importanceScore := d.importanceScore, memoryType := d.memoryType,
                  isArchived := d.isArchived, metadata := d.metadata }, s2)

/-- Models `addInteraction` including the fallible INSERT (`Except.error` is
the thrown NOT NULL constraint failure on a NaN score). -/
def addInteractionRun (cfg : ManagerConfig) (oracle : Oracle) (s : StoreState)
    (userMessage : String) (_agentResponse : String)
    (metadata : List (String × String)) (now : String) :
    Except Unit (Option Memory × StoreState) :=
  addInteractionGo cfg oracle s metadata now (extractPersonalInformation oracle userMessage)

/-- Models `recallFromArchive`.  The archive vector index and its
`similaritySearch(query, k)` call are external: `archiveIndex = none` models an
absent index (no archived memories, or a failed rebuild), and `searchResult`
is the list of page contents the index returns for the query (or a thrown
error, which the source swallows into `[]`).  The source builds
`new Map(archivedMemories.map(m => [m.content, m]))`, in which a later entry
with the same content overwrites an earlier one, and drops search hits with no
map entry — hence the reversed `find?` and the `filterMap`. -/
def recallFromArchive (s : StoreState) (archiveIndex : Option Unit)
    (searchResult : Except Unit (List String)) : List Memory :=
  match archiveIndex with
  | none => []
  | some _ =>
    match searchResult with
    | .error _ => []
    | .ok results =>
      let archivedMemories := getArchivedMemories s none
      results.filterMap
        (fun content => archivedMemories.reverse.find? (fun m => m.content = content))

/-- Models `getRelevantContext`: recent active memories up to `maxMemories`,
plus archive recall with `k = floor(maxMemories / 2)`. -/
def getRelevantContext (s : StoreState) (maxMemories : Nat) (archiveIndex : Option Unit)
    (searchResult : Except Unit (List String)) : List Memory × List Memory :=
  (getActiveMemories s (some maxMemories),
   recallFromArchive s archiveIndex searchResult)

/-! ### Agent nodes (`src/agent/nodes.ts`, phase-routed ticket-triage variant)

`conversationPhase` is one of four phase strings; we model it as a closed
enum.  Optional string fields are `Option String`, where `none` is a missing
key / `undefined` and `some ""` an empty string (falsy in JS). -/

inductive Phase where
  | initialAssessment : Phase
  | gatheringDetails : Phase
  | generatingTicket : Phase
  | complete : Phase
deriving DecidableEq, Repr

structure UserDetails where
  name : Option String := none
  email : Option String := none
  department : Option String := none
  location : Option String := none
deriving DecidableEq, Repr

structure TicketFields where
  title : Option String := none
  description : Option String := none
  category : Option String := none
  subcategory : Option String := none
  priority : Option String := none
  urgency : Option String := none
  userDetails : UserDetails := {}
  impactDetails : Option String := none
  technicalDetails : Option String := none
deriving DecidableEq, Repr

/-- JS truthiness of an optional string field (`undefined` and `""` are falsy). -/
def fieldPresent : Option String → Bool
  | none => false
  | some s => !s.data.isEmpty

/-- Models `fields.description?.length || 0`. -/
def descLength (fields : TicketFields) : Nat :=
  match fields.description with
  | none => 0
  | some s => s.length

/-- Models `routingDecision`: pure function of phase, ticket fields and
question count (each defaulted as in the source: `|| "initial_assessment"`,
`|| {}`, `|| 0`). -/
def routingDecision (conversationPhase : Option Phase) (ticketFields : Option TicketFields)
    (questionCount : Option Nat) : Phase :=
  let phase := conversationPhase.getD .initialAssessment
  let fields := ticketFields.getD {}
  let qc := questionCount.getD 0
  match phase with
  | .initialAssessment => .gatheringDetails
  | .gatheringDetails =>
    let hasRequired := fieldPresent fields.title && fieldPresent fields.description &&
      fieldPresent fields.userDetails.name && fieldPresent fields.userDetails.email
    let hasEnoughInfo := decide (3 ≤ qc) || decide (100 < descLength fields)
    let maxQuestionsReached := decide (5 ≤ qc)
    if hasRequired && (hasEnoughInfo || maxQuestionsReached) then .generatingTicket
    else .gatheringDetails
  | .generatingTicket => .complete
  | .complete => .complete

/-! #### Pattern scan of `extractUserDetailsFromMemories`

The source scans memory content with four case-insensitive regexes and keeps
the first capture per field.  We implement the leftmost-match backtracking
semantics of those regexes directly on char lists. -/

/-- Case-insensitive literal match: returns the remainder of `cs` after the
pattern, or `none`. -/
def stripCI : List Char → List Char → Option (List Char)
  | [], cs => some cs
  | _ :: _, [] => none
  | p :: ps, c :: cs => if c.toLower = p.toLower then stripCI ps cs else none

/-- JS `\w` (no unicode flag): ASCII letters, digits, underscore. -/
def isWordChar (c : Char) : Bool :=
  c.isAlphanum || c = '_'

/-- JS `[:\s]` (the separator class of the email/department/location regexes). -/
def isSepChar (c : Char) : Bool :=
  c = ':' || isWsChar c

/-- JS `[^\s,]` (the address-chunk class of the email regex). -/
def isAddrChar (c : Char) : Bool :=
  !(isWsChar c || c = ',')

/-- JS `[^,.\n]` (the capture class of the department/location regexes). -/
def isCapChar (c : Char) : Bool :=
  !(c = ',' || c = '.' || c = '\n')

/-- Try a regex step at every position, leftmost match first (regex scan). -/
def scanFirst (step : List Char → Option String) : List Char → Option String
  | [] => step []
  | c :: cs =>
    match step (c :: cs) with
    | some r => some r
    | none => scanFirst step cs

/-- One alternative of `/(?:name is|I'm|I am) (\w+)/i` at a fixed position:
the literal, a space, then a nonempty greedy `\w+` capture (original case). -/
def tryNameAlt (alt : List Char) (cs : List Char) : Option String :=
  match stripCI alt cs with
  | none => none
  | some rest =>
    match rest with
    | ' ' :: rest2 =>
      let w := rest2.takeWhile isWordChar
      if w.isEmpty then none else some (String.mk w)
    | _ => none

/-- The three alternatives `name is`, `I'm`, `I am` (apostrophe spelled via
`Char.ofNat 39`), tried in regex order. -/
def stepName (cs : List Char) : Option String :=
  tryNameAlt ['n', 'a', 'm', 'e', ' ', 'i', 's'] cs <|>
  tryNameAlt ['I', Char.ofNat 39, 'm'] cs <|>
  tryNameAlt ['I', ' ', 'a', 'm'] cs

/-- Does the chunk contain an `@` that is neither its first nor last char?
When it does, `([^\s,]+@[^\s,]+)` captures the whole chunk. -/
def hasInteriorAt (w : List Char) : Bool :=
  ((w.drop 1).dropLast).contains '@'

/-- Backtracking over the greedy `[:\s]+` of the email regex: try `k` down to
1 separator characters, then require an address chunk with an interior `@`. -/
def tryEmailSeps : Nat → List Char → Option String
  | 0, _ => none
  | k + 1, rest0 =>
    let w := (rest0.drop (k + 1)).takeWhile isAddrChar
    if hasInteriorAt w then some (String.mk w)
    else tryEmailSeps k rest0

/-- `/email[:\s]+([^\s,]+@[^\s,]+)/i` at a fixed position. -/
def stepEmail (cs : List Char) : Option String :=
  match stripCI ['e', 'm', 'a', 'i', 'l'] cs with
  | none => none
  | some rest =>
    let seps := rest.takeWhile isSepChar
    if seps.isEmpty then none
    else tryEmailSeps seps.length rest

/-- Backtracking over the greedy `[:\s]+` of the department/location regexes:
try `k` down to 1 separator characters, then a nonempty greedy `[^,.\n]+`. -/
def tryKeywordSeps : Nat → List Char → Option String
  | 0, _ => none
  | k + 1, rest0 =>
    let cap := (rest0.drop (k + 1)).takeWhile isCapChar
    if cap.isEmpty then tryKeywordSeps k rest0
    else some (String.mk cap)

/-- `/department[:\s]+([^,.\n]+)/i` and `/location[:\s]+([^,.\n]+)/i` at a
fixed position, for a given keyword. -/
def stepKeyword (kw : List Char) (cs : List Char) : Option String :=
  match stripCI kw cs with
  | none => none
  | some rest =>
    let seps := rest.takeWhile isSepChar
    if seps.isEmpty then none
    else tryKeywordSeps seps.length rest

/-- Is this userDetails field still falsy (`!userDetails.x`): unset or empty? -/
def detailUnset : Option String → Bool
  | none => true
  | some s => s.data.isEmpty

/-- One iteration of the memory loop in `extractUserDetailsFromMemories`:
each pattern result is kept only when the field is still falsy; the
department/location captures are trimmed. -/
def scanMemoryContent (ud : UserDetails) (content : String) : UserDetails :=
  let cs := content.data
  let ud1 :=
    match scanFirst stepName cs with
    | some w => if detailUnset ud.name then { ud with name := some w } else ud
    | none => ud
  let ud2 :=
    match scanFirst stepEmail cs with
    | some w => if detailUnset ud1.email then { ud1 with email := some w } else ud1
    | none => ud1
  let ud3 :=
    match scanFirst (stepKeyword ['d', 'e', 'p', 'a', 'r', 't', 'm', 'e', 'n', 't']) cs with
    | some w => if detailUnset ud2.department then { ud2 with department := some (jsTrim w) } else ud2
    | none => ud2
  match scanFirst (stepKeyword ['l', 'o', 'c', 'a', 't', 'i', 'o', 'n']) cs with
  | some w => if detailUnset ud3.location then { ud3 with location := some (jsTrim w) } else ud3
  | none => ud3

/-- Models `extractUserDetailsFromMemories`: scans the memories in order,
keeping the first (truthy) capture per field. -/
def extractUserDetailsFromMemories (memories : List Memory) : UserDetails :=
  memories.foldl (fun ud m => scanMemoryContent ud m.content) {}

/-- JS object spread for one optional field: the newer object wins whenever
its key is present. -/
def overlay (newer older : Option String) : Option String :=
  match newer with
  | some v => some v
  | none => older

/-- The `ticketFields` patch produced by the `memoryRetrieval` node:
`{ ...state.ticketFields, userDetails: { ...state.ticketFields?.userDetails,
...extractedUserDetails } }` — the extracted details are spread last. -/
def memoryRetrievalTicketFields (stateTicketFields : Option TicketFields)
    (activeMemories recalledMemories : List Memory) : TicketFields :=
  let userDetails := extractUserDetailsFromMemories (activeMemories ++ recalledMemories)
  let prior := stateTicketFields.getD {}
  { prior with userDetails :=
      { name := overlay userDetails.name prior.userDetails.name,
        email := overlay userDetails.email prior.userDetails.email,
        department := overlay userDetails.department prior.userDetails.department,
        location := overlay userDetails.location prior.userDetails.location } }

/-! #### JS values and the generic `deepMerge` helper

`deepMerge` in `nodes.ts` is a generic helper over arbitrary JS values (the
extraction result is whatever `JSON.parse` returned).  We model JS values as
a closed datatype and the helper with its exact branch conditions. -/

inductive JVal where
  | vUndefined : JVal
  | vNull : JVal
  | vBool (b : Bool) : JVal
  | vNum (n : JsNum) : JVal
  | vStr (s : String) : JVal
  | vArr (elems : List JVal) : JVal
  | vObj (fields : List (String × JVal)) : JVal

/-- JS truthiness of a value. -/
def jvTruthy : JVal → Bool
  | .vUndefined => false
  | .vNull => false
  | .vBool b => b
  | .vNum .nan => false
  | .vNum (.num q) => decide (q ≠ 0)
  | .vNum _ => true
  | .vStr s => !s.data.isEmpty
  | .vArr _ => true
  | .vObj _ => true

/-- Own enumerable entries of a value: models both `{...x}` (object spread)
and `for (const key in x)` with `x[key]`.  Objects yield their fields, strings
and arrays their indexed elements, primitives and `null`/`undefined` nothing. -/
def jsOwnEntries : JVal → List (String × JVal)
  | .vObj fs => fs
  | .vStr s => s.data.enum.map (fun p => (toString p.1, .vStr (String.mk [p.2])))
  | .vArr es => es.enum.map (fun p => (toString p.1, p.2))
  | _ => []

/-- First binding of a key in an association list (JS objects have unique
keys, so first = only). -/
def getKey (fs : List (String × JVal)) (k : String) : Option JVal :=
  (fs.find? (fun p => p.1 = k)).map (fun p => p.2)

/-- JS property read `x[k]` (absent keys give `undefined`). -/
def fieldOf (target : JVal) (k : String) : JVal :=
  (getKey (jsOwnEntries target) k).getD .vUndefined

/-- JS `x || {}`. -/
def jsOrEmptyObj (v : JVal) : JVal :=
  if jvTruthy v then v else .vObj []

/-- JS assignment `result[k] = v` on an association list: replace in place,
else append. -/
def setKey : List (String × JVal) → String → JVal → List (String × JVal)
  | [], k, v => [(k, v)]
  | (k1, v1) :: rest, k, v =>
    if k1 = k then (k, v) :: rest else (k1, v1) :: setKey rest k v

/-- The second branch guard of `deepMerge`:
`source[key] !== undefined && source[key] !== null && source[key] !== ""`. -/
def keepPrimitive : JVal → Bool
  | .vUndefined => false
  | .vNull => false
  | .vStr s => !s.data.isEmpty
  | _ => true

/-- The `for (const key in source)` loop body of `deepMerge`.  The first
branch guard `source[key] && typeof source[key] === "object" &&
!Array.isArray(source[key])` holds exactly for object values (`null` is falsy,
arrays are excluded), in which case the helper recurses with
`target[key] || {}`; otherwise the value is assigned only when it passes
`keepPrimitive`. -/
def mergeInto : JVal → List (String × JVal) → List (String × JVal) → List (String × JVal)
  | _, result, [] => result
  | target, result, (k, .vObj fs) :: rest =>
    let t1 := jsOrEmptyObj (fieldOf target k)
    mergeInto target (setKey result k (.vObj (mergeInto t1 (jsOwnEntries t1) fs))) rest
  | target, result, (k, v) :: rest =>
    mergeInto target (if keepPrimitive v then setKey result k v else result) rest
termination_by _ _ entries => sizeOf entries
decreasing_by
  all_goals simp only [List.cons.sizeOf_spec, Prod.mk.sizeOf_spec, JVal.vObj.sizeOf_spec]
  all_goals omega

/-- Models `deepMerge(target, source)`: start from `{...target}` and process
the own entries of `source`. -/
def deepMerge (target source : JVal) : JVal :=
  .vObj (mergeInto target (jsOwnEntries target) (jsOwnEntries source))

/-! ## Theorems -/

/-! ### C1: routing out of `gathering_details` -/

/-- `routingDecision` from `gathering_details`, unfolded to its guard. -/
lemma routingDecision_gatheringDetails_eq (f : TicketFields) (q : Nat) :
    routingDecision (some .gatheringDetails) (some f) (some q) =
      if (fieldPresent f.title && fieldPresent f.description &&
            fieldPresent f.userDetails.name && fieldPresent f.userDetails.email) &&
          ((decide (3 ≤ q) || decide (100 < descLength f)) || decide (5 ≤ q)) then
        Phase.generatingTicket
      else Phase.gatheringDetails := rfl

/-- Boundary instance for C1: `questionCount = 5` but `userDetails.email` missing. -/
def c1FieldsMissingEmail : TicketFields :=
  { title := some "VPN outage", description := some "VPN drops every hour",
    userDetails := { name := some "Sam", email := none } }

/-- Boundary instance for C1: all required fields present, description of length 50. -/
def c1FieldsAllPresent : TicketFields :=
  { title := some "VPN outage",
    description := some "01234567890123456789012345678901234567890123456789",
    userDetails := { name := some "Sam", email := some "sam@corp.com" } }

/-- C1: for every state in phase `gathering_details`, `routingDecision` moves to
`generating_ticket` iff all four required fields are present (JS-truthy) and
`questionCount >= 3` or the description is longer than 100 or
`questionCount >= 5`; otherwise the phase stays `gathering_details`.  In
particular, with `questionCount = 5` but `userDetails.email` missing the phase
stays `gathering_details`, and with all required fields present,
`questionCount = 3` and a 50-char description it moves to `generating_ticket`. -/
theorem routingDecision_gatheringDetails_characterisation :
    (∀ (fields : TicketFields) (qc : Nat),
      (routingDecision (some .gatheringDetails) (some fields) (some qc) = .generatingTicket ↔
        ((fieldPresent fields.title = true ∧ fieldPresent fields.description = true ∧
          fieldPresent fields.userDetails.name = true ∧
          fieldPresent fields.userDetails.email = true) ∧
         (3 ≤ qc ∨ 100 < descLength fields ∨ 5 ≤ qc))) ∧
      (routingDecision (some .gatheringDetails) (some fields) (some qc) = .generatingTicket ∨
       routingDecision (some .gatheringDetails) (some fields) (some qc) = .gatheringDetails)) ∧
    routingDecision (some .gatheringDetails) (some c1FieldsMissingEmail) (some 5) =
      .gatheringDetails ∧
    routingDecision (some .gatheringDetails) (some c1FieldsAllPresent) (some 3) =
      .generatingTicket := by
  refine ⟨fun fields qc => ⟨?_, ?_⟩, by decide, by decide⟩
  · rw [routingDecision_gatheringDetails_eq]
    split
    case isTrue h =>
      simp only [Bool.and_eq_true, Bool.or_eq_true, decide_eq_true_eq] at h
      simp only [true_iff, iff_true]
      constructor
      · exact ⟨h.1.1.1.1, h.1.1.1.2, h.1.1.2, h.1.2⟩
      · tauto
    case isFalse h =>
      simp only [Bool.and_eq_true, Bool.or_eq_true, decide_eq_true_eq] at h
      constructor
      · intro hc; exact absurd hc (by decide)
      · intro hc; exfalso; apply h; tauto
  · rw [routingDecision_gatheringDetails_eq]
    split
    · exact Or.inl rfl
    · exact Or.inr rfl

/-! ### C3: non-personal inputs create no memory -/

/-- C3: whenever the extraction step reports no personal content,
`addInteraction` returns null and leaves the store, its active count and its
total count unchanged. -/
theorem addInteraction_nonPersonal_noop (cfg : ManagerConfig) (oracle : Oracle)
    (s : StoreState) (u a : String) (md : List (String × String)) (now : String)
    (h : extractPersonalInformation oracle u = none) :
    addInteraction cfg oracle s u a md now = (none, s) ∧
    activeCount (addInteraction cfg oracle s u a md now).2 = activeCount s ∧
    getMemoryCount (addInteraction cfg oracle s u a md now).2 none = getMemoryCount s none := by
  unfold addInteraction
  rw [h]
  exact ⟨rfl, rfl, rfl⟩

/-- Witness for C3 at a concrete non-personal input (Oracle replies `NONE`). -/
theorem addInteraction_nonPersonal_noop_witness :
    extractPersonalInformation ⟨fun _ => .ok "NONE"⟩ "What is RAG?" = none ∧
    addInteraction { countTokens := String.length } ⟨fun _ => .ok "NONE"⟩ .empty
      "What is RAG?" "RAG is retrieval augmented generation." [] "2026-01-01" =
      (none, .empty) :=
  ⟨by decide,
   (addInteraction_nonPersonal_noop { countTokens := String.length } ⟨fun _ => .ok "NONE"⟩
      .empty "What is RAG?" "RAG is retrieval augmented generation." [] "2026-01-01"
      (by decide)).1⟩

/-! ### C10: the assistant response is never read -/

/-- C10: `addInteraction` ignores its assistant-response argument: two calls
differing only in that argument produce the same value and the same store. -/
theorem addInteraction_ignores_agentResponse (cfg : ManagerConfig) (oracle : Oracle)
    (s : StoreState) (u : String) (a1 a2 : String) (md : List (String × String))
    (now : String) :
    addInteraction cfg oracle s u a1 md now = addInteraction cfg oracle s u a2 md now := rfl

/-! ### C8: importance scores

`scoreImportance` can return NaN (a scoring reply with no numeric prefix,
since `parseFloat` gives NaN and `Math.max(1, Math.min(10, NaN))` propagates
it), but a NaN score never reaches the table: SQLite converts a bound NaN to
NULL, the `importance_score REAL NOT NULL` column makes the INSERT throw, and
`addInteraction` has no try/catch around it — so on that path no entry is
created at all.  Every entry actually created therefore carries an in-range
score, and a thrown scoring call defaults to exactly 7.0. -/

/-- Is a score a finite number within `[1, 10]`? -/
def scoreInRange : JsNum → Bool
  | .num q => decide (1 ≤ q ∧ q ≤ 10)
  | _ => false

instance {ε α : Type} [DecidableEq ε] [DecidableEq α] : DecidableEq (Except ε α) :=
  fun a b =>
    match a, b with
    | .error e1, .error e2 =>
      if h : e1 = e2 then isTrue (by rw [h]) else isFalse (by simp [h])
    | .ok a1, .ok a2 =>
      if h : a1 = a2 then isTrue (by rw [h]) else isFalse (by simp [h])
    | .error _, .ok _ => isFalse (by simp)
    | .ok _, .error _ => isFalse (by simp)

/-- A score produced by `scoreImportance` is NaN or lands in `[1, 10]`: the
thrown-failure default 7.0 and the clamp of every non-NaN parse (both
infinities included) are in range. -/
lemma scoreImportance_nan_or_range (oracle : Oracle) (content : String) :
    scoreImportance oracle content = .nan ∨
    scoreInRange (scoreImportance oracle content) = true := by
  unfold scoreImportance
  cases h : oracle.complete (scoringPromptFor content) with
  | error e =>
    right
    show scoreInRange (JsNum.num 7) = true
    decide
  | ok reply =>
    show jsMaxConst 1 (jsMinConst 10 (parseFloat (jsTrim reply))) = .nan ∨
      scoreInRange (jsMaxConst 1 (jsMinConst 10 (parseFloat (jsTrim reply)))) = true
    cases hp : parseFloat (jsTrim reply) with
    | nan => left; rfl
    | inf => right; decide
    | negInf => right; decide
    | num q =>
      right
      simp only [jsMinConst, jsMaxConst, scoreInRange, decide_eq_true_eq]
      exact ⟨le_sup_left, sup_le (by norm_num) inf_le_left⟩

/-- C8: every memory entry `addInteraction` actually creates carries an
importance score in `[1, 10]`, for every possible Oracle scoring reply, and
it is exactly the `scoreImportance` of its content; when the scoring reply
has no numeric prefix the score is NaN and the INSERT throws (NaN binds as
NULL into a NOT NULL column), so no entry is created on that path; when the
scoring call itself throws, the score defaults to exactly 7.0. -/
theorem addInteraction_created_score_in_range (cfg : ManagerConfig) (oracle : Oracle)
    (s : StoreState) (u a : String) (md : List (String × String)) (now : String) :
    (∀ (m : Memory) (s2 : StoreState),
       addInteractionRun cfg oracle s u a md now = .ok (some m, s2) →
       scoreInRange m.importanceScore = true ∧
       m.importanceScore = scoreImportance oracle m.content) ∧
    (∀ info, extractPersonalInformation oracle u = some info →
       scoreImportance oracle info = .nan →
       addInteractionRun cfg oracle s u a md now = .error ()) ∧
    (∀ content, oracle.complete (scoringPromptFor content) = .error () →
       scoreImportance oracle content = .num 7) := by
  refine ⟨?_, ?_, ?_⟩
  · intro m s2 hm
    unfold addInteractionRun at hm
    cases he : extractPersonalInformation oracle u with
    | none =>
      rw [he] at hm
      simp only [addInteractionGo] at hm
      exact absurd hm (by simp)
    | some info =>
      rw [he] at hm
      simp only [addInteractionGo] at hm
      by_cases hnan : scoreImportance oracle info = .nan
      · rw [if_pos hnan] at hm
        exact absurd hm (by simp)
      · rw [if_neg hnan] at hm
        simp only [Except.ok.injEq, Prod.mk.injEq, Option.some.injEq] at hm
        obtain ⟨hm1, _⟩ := hm
        subst hm1
        exact ⟨(scoreImportance_nan_or_range oracle info).resolve_left hnan, rfl⟩
  · intro info he hnan
    unfold addInteractionRun
    rw [he]
    simp only [addInteractionGo]
    rw [if_pos hnan]
  · intro content h
    unfold scoreImportance
    rw [h]

/-- Config for the C8 witness: capacity 0 so the consolidation check takes
the count trigger. -/
def c8Cfg : ManagerConfig :=
  { maxActiveMemories := 0, importanceThreshold := 5, maxContextLength := 4000,
    consolidationTrigger := 1, countTokens := String.length }

/-- Oracle for the C8 witness: extraction finds personal content, scoring
replies `8`. -/
def c8OkOracle : Oracle :=
  ⟨fun p => if hasSub p "Rate the importance" then .ok "8"
            else .ok "User: loves math"⟩

/-- The memory the C8 witness run returns. -/
def c8CreatedMemory : Memory :=
  { id := 0, content := "User: loves math", timestamp := "2026-01-01",
    importanceScore := .num 8, memoryType := .preference, isArchived := false,
    metadata := [] }

/-- The store the C8 witness run leaves (capacity 0, so the consolidation
check archives the fresh row). -/
def c8FinalStore : StoreState :=
  ⟨[{ id := 0, content := "User: loves math", timestamp := "2026-01-01",
      importanceScore := .num 8, memoryType := .preference, isArchived := true,
      metadata := [] }], 1⟩

/-- Witness for C8 at a concrete run that creates an entry: the created
entry's score is in range and equals `scoreImportance` of its content. -/
theorem addInteraction_created_score_in_range_witness :
    addInteractionRun c8Cfg c8OkOracle .empty "I love math" "nice" [] "2026-01-01" =
      .ok (some c8CreatedMemory, c8FinalStore) ∧
    scoreInRange c8CreatedMemory.importanceScore = true ∧
    c8CreatedMemory.importanceScore = scoreImportance c8OkOracle c8CreatedMemory.content :=
  ⟨by decide,
   ((addInteraction_created_score_in_range c8Cfg c8OkOracle .empty "I love math" "nice"
      [] "2026-01-01").1 c8CreatedMemory c8FinalStore (by decide)).1,
   ((addInteraction_created_score_in_range c8Cfg c8OkOracle .empty "I love math" "nice"
      [] "2026-01-01").1 c8CreatedMemory c8FinalStore (by decide)).2⟩

/-! ### C4: `deepMerge` never regresses a known field -/

/-- Lookup on a cons cell. -/
lemma getKey_cons (k2 : String) (v2 : JVal) (rest : List (String × JVal)) (k : String) :
    getKey ((k2, v2) :: rest) k = if k2 = k then some v2 else getKey rest k := by
  by_cases h : k2 = k <;> simp [getKey, List.find?, h]

/-- `setKey` at a different key does not change a lookup. -/
lemma getKey_setKey_ne (l : List (String × JVal)) (k k1 : String) (v : JVal)
    (h : k ≠ k1) : getKey (setKey l k1 v) k = getKey l k := by
  induction l with
  | nil => simp [setKey, getKey_cons, Ne.symm h, getKey]
  | cons p rest ih =>
    obtain ⟨k2, v2⟩ := p
    by_cases h2 : k2 = k1
    · simp only [setKey, if_pos h2, getKey_cons, Ne.symm h, if_false, if_neg (Ne.symm h)]
      rw [if_neg (h2 ▸ fun e => h e.symm : ¬k2 = k)]
    · simp only [setKey, if_neg h2, getKey_cons, ih]

/-- An entry whose value would be skipped by `deepMerge`:
`undefined`, `null`, or the empty string. -/
def skippedValue (v : JVal) : Prop :=
  v = JVal.vUndefined ∨ v = JVal.vNull ∨ v = JVal.vStr ""

/-- If every source entry at key `k` is a skipped value, the merge loop never
touches key `k`. -/
lemma mergeInto_preserves_skipped (target : JVal) (k : String) :
    ∀ (entries : List (String × JVal)) (res : List (String × JVal)),
      (∀ p ∈ entries, p.1 = k → skippedValue p.2) →
      getKey (mergeInto target res entries) k = getKey res k := by
  intro entries
  induction entries with
  | nil => intro res _; simp only [mergeInto]
  | cons p rest ih =>
    intro res h
    obtain ⟨k1, v⟩ := p
    have hrest : ∀ q ∈ rest, q.1 = k → skippedValue q.2 :=
      fun q hq => h q (List.mem_cons_of_mem _ hq)
    have hne : ∀ (hk : ¬k1 = k) (w : JVal),
        getKey (setKey res k1 w) k = getKey res k :=
      fun hk w => getKey_setKey_ne res k k1 w (fun e => hk e.symm)
    by_cases hk : k1 = k
    · subst hk
      have hv : skippedValue v := h (k1, v) (List.mem_cons_self _ _) rfl
      rcases hv with hv | hv | hv <;> subst hv <;>
        simp only [mergeInto, keepPrimitive] <;>
        exact ih res hrest
    · cases v with
      | vObj fs =>
        simp only [mergeInto]
        rw [ih _ hrest, hne hk]
      | vUndefined =>
        simp only [mergeInto, keepPrimitive]
        rw [if_neg (by simp)]
        exact ih res hrest
      | vNull =>
        simp only [mergeInto, keepPrimitive]
        rw [if_neg (by simp)]
        exact ih res hrest
      | vBool b =>
        simp only [mergeInto, keepPrimitive]
        rw [if_pos trivial, ih _ hrest, hne hk]
      | vNum n =>
        simp only [mergeInto, keepPrimitive]
        rw [if_pos trivial, ih _ hrest, hne hk]
      | vStr s =>
        simp only [mergeInto, keepPrimitive]
        by_cases hs : s.data.isEmpty
        · rw [if_neg (by simp [hs])]
          exact ih res hrest
        · rw [if_pos (by simp [hs]), ih _ hrest, hne hk]
      | vArr es =>
        simp only [mergeInto, keepPrimitive]
        rw [if_pos trivial, ih _ hrest, hne hk]

/-- C4: the deep-merge of `extractionNode` never overwrites a field of the
prior record with an empty string, null or undefined value from the new
extraction: whenever every source entry at key `k` carries such a value, the
merged object maps `k` exactly as the prior record does. -/
theorem deepMerge_no_regression (t s : List (String × JVal)) (k : String)
    (h : ∀ p ∈ s, p.1 = k → skippedValue p.2) :
    getKey (jsOwnEntries (deepMerge (.vObj t) (.vObj s))) k = getKey t k :=
  mergeInto_preserves_skipped (.vObj t) k s t h

/-- Witness for C4 at the instance named in the claim: merging prior
`{title: "X"}` with new `{title: ""}` retains `"X"`. -/
theorem deepMerge_no_regression_witness :
    getKey (jsOwnEntries (deepMerge (.vObj [("title", .vStr "X")])
      (.vObj [("title", .vStr "")]))) "title" = some (.vStr "X") :=
  (deepMerge_no_regression [("title", .vStr "X")] [("title", .vStr "")] "title" (by
      intro p hp _
      rw [List.mem_singleton] at hp
      subst hp
      exact Or.inr (Or.inr rfl))).trans (by simp [getKey, List.find?])

/-! ### C5: memoryRetrieval and already-known userDetails

The claim is false as stated: the node spreads the pattern-scanned details
*after* the prior state details
(`{ ...state.ticketFields?.userDetails, ...userDetails }`), so a field found
in memory content overwrites an already-known state value. -/

/-- Prior state for C5: the user name is already known to be Alice. -/
def c5Prior : TicketFields := { userDetails := { name := some "Alice" } }

/-- Retrieved memory for C5 whose content matches the name pattern. -/
def c5Memory : Memory :=
  { id := 0, content := "name is Bob", timestamp := "2026-01-01",
    importanceScore := .num 7, memoryType := .preference, isArchived := false,
    metadata := [] }

/-- Retrieved memory for C5 matching no pattern. -/
def c5Hello : Memory :=
  { id := 1, content := "hello there", timestamp := "2026-01-01",
    importanceScore := .num 7, memoryType := .preference, isArchived := false,
    metadata := [] }

/-- C5 counterexample: with `userDetails.name = "Alice"` already in the state
and an active memory reading `name is Bob`, the node output carries
`name = "Bob"` — the prior value is overwritten, contradicting the claim. -/
theorem memoryRetrieval_overwrites_counterexample :
    c5Prior.userDetails.name = some "Alice" ∧
    (memoryRetrievalTicketFields (some c5Prior) [c5Memory] []).userDetails.name = some "Bob" ∧
    (memoryRetrievalTicketFields (some c5Prior) [c5Memory] []).userDetails.name ≠ some "Alice" :=
  ⟨rfl, by decide, by decide⟩

/-- C5 amended: `memoryRetrieval` populates the four `userDetails` fields from
the pattern scan of retrieved memory content, and the scanned details are
spread last: a field the scan finds overwrites any prior state value, while a
field the scan leaves unset keeps the incoming state value. -/
theorem memoryRetrieval_userDetails_amended (stf : Option TicketFields)
    (active recalled : List Memory) :
    ((extractUserDetailsFromMemories (active ++ recalled)).name = none →
      (memoryRetrievalTicketFields stf active recalled).userDetails.name =
        (stf.getD {}).userDetails.name) ∧
    (∀ v, (extractUserDetailsFromMemories (active ++ recalled)).name = some v →
      (memoryRetrievalTicketFields stf active recalled).userDetails.name = some v) ∧
    ((extractUserDetailsFromMemories (active ++ recalled)).email = none →
      (memoryRetrievalTicketFields stf active recalled).userDetails.email =
        (stf.getD {}).userDetails.email) ∧
    (∀ v, (extractUserDetailsFromMemories (active ++ recalled)).email = some v →
      (memoryRetrievalTicketFields stf active recalled).userDetails.email = some v) ∧
    ((extractUserDetailsFromMemories (active ++ recalled)).department = none →
      (memoryRetrievalTicketFields stf active recalled).userDetails.department =
        (stf.getD {}).userDetails.department) ∧
    (∀ v, (extractUserDetailsFromMemories (active ++ recalled)).department = some v →
      (memoryRetrievalTicketFields stf active recalled).userDetails.department = some v) ∧
    ((extractUserDetailsFromMemories (active ++ recalled)).location = none →
      (memoryRetrievalTicketFields stf active recalled).userDetails.location =
        (stf.getD {}).userDetails.location) ∧
    (∀ v, (extractUserDetailsFromMemories (active ++ recalled)).location = some v →
      (memoryRetrievalTicketFields stf active recalled).userDetails.location = some v) := by
  refine ⟨?_, ?_, ?_, ?_, ?_, ?_, ?_, ?_⟩
  · intro h; simp [memoryRetrievalTicketFields, overlay, h]
  · intro v h; simp [memoryRetrievalTicketFields, overlay, h]
  · intro h; simp [memoryRetrievalTicketFields, overlay, h]
  · intro v h; simp [memoryRetrievalTicketFields, overlay, h]
  · intro h; simp [memoryRetrievalTicketFields, overlay, h]
  · intro v h; simp [memoryRetrievalTicketFields, overlay, h]
  · intro h; simp [memoryRetrievalTicketFields, overlay, h]
  · intro v h; simp [memoryRetrievalTicketFields, overlay, h]

/-- Witness for C5 amended: a pattern-free memory leaves the prior name, a
matching memory installs the scanned name. -/
theorem memoryRetrieval_userDetails_amended_witness :
    (extractUserDetailsFromMemories ([c5Hello] ++ [])).name = none ∧
    (memoryRetrievalTicketFields (some c5Prior) [c5Hello] []).userDetails.name =
      ((some c5Prior).getD {}).userDetails.name ∧
    (extractUserDetailsFromMemories ([c5Memory] ++ [])).name = some "Bob" ∧
    (memoryRetrievalTicketFields (some c5Prior) [c5Memory] []).userDetails.name = some "Bob" :=
  ⟨by decide,
   (memoryRetrieval_userDetails_amended (some c5Prior) [c5Hello] []).1 (by decide),
   by decide,
   (memoryRetrieval_userDetails_amended (some c5Prior) [c5Memory] []).2.1 "Bob" (by decide)⟩

/-! ### C9: insert / listActive round trip

The claim quantifies over *every* memory entry, but an entry inserted with
`isArchived = true` is invisible to `listActive` (`WHERE is_archived = 0`), so
no retrieved entry matches it.  For non-archived entries the round trip is
exact. -/

/-- An entry inserted already archived, for the C9 counterexample. -/
def c9Archived : MemoryData :=
  { content := "old fact", timestamp := "2026-01-01", importanceScore := .num 7,
    memoryType := .preference, isArchived := true, metadata := [] }

/-- C9 counterexample: inserting an archived entry and then calling
`getActiveMemories` yields no entry at all, so no retrieved entry carries the
inserted content. -/
theorem addMemory_listActive_roundtrip_counterexample :
    c9Archived.isArchived = true ∧
    getActiveMemories (addMemory .empty c9Archived).2 none = [] ∧
    ¬ ∃ m ∈ getActiveMemories (addMemory .empty c9Archived).2 none,
        m.content = c9Archived.content := by decide

/-- C9 amended: for every entry with `isArchived = false`, inserting it via
`addMemory` and retrieving via `getActiveMemories` yields an entry (with the
returned id) whose `content`, `importanceScore` and `metadata` equal the
inserted values exactly. -/
theorem addMemory_listActive_roundtrip (s : StoreState) (d : MemoryData)
    (h : d.isArchived = false) :
    ∃ m ∈ getActiveMemories (addMemory s d).2 none,
      m.id = (addMemory s d).1 ∧ m.content = d.content ∧
      m.importanceScore = d.importanceScore ∧ m.metadata = d.metadata := by
  refine ⟨{ id := s.nextId, content := d.content, timestamp := d.timestamp,
            importanceScore := d.importanceScore, memoryType := d.memoryType,
            isArchived := d.isArchived, metadata := d.metadata }, ?_, rfl, rfl, rfl, rfl⟩
  show _ ∈ List.insertionSort tsDesc ((s.rows ++ [_]).filter (fun m => !m.isArchived))
  refine (List.perm_insertionSort tsDesc _).mem_iff.mpr ?_
  exact List.mem_filter.mpr
    ⟨List.mem_append_right _ (List.mem_singleton_self _), by simp [h]⟩

/-- Witness for C9 amended at a concrete non-archived entry. -/
theorem addMemory_listActive_roundtrip_witness :
    ({ content := "User: name is Ada", timestamp := "2026-01-02",
       importanceScore := .num 9, memoryType := .preference, isArchived := false,
       metadata := [("type", "user_details")] } : MemoryData).isArchived = false ∧
    ∃ m ∈ getActiveMemories (addMemory .empty
        { content := "User: name is Ada", timestamp := "2026-01-02",
          importanceScore := .num 9, memoryType := .preference, isArchived := false,
          metadata := [("type", "user_details")] }).2 none,
      m.id = (addMemory .empty
        { content := "User: name is Ada", timestamp := "2026-01-02",
          importanceScore := .num 9, memoryType := .preference, isArchived := false,
          metadata := [("type", "user_details")] }).1 ∧
      m.content = "User: name is Ada" ∧
      m.importanceScore = .num 9 ∧ m.metadata = [("type", "user_details")] :=
  ⟨rfl, addMemory_listActive_roundtrip .empty
    { content := "User: name is Ada", timestamp := "2026-01-02",
      importanceScore := .num 9, memoryType := .preference, isArchived := false,
      metadata := [("type", "user_details")] } rfl⟩

/-! ### C6: getRelevantContext bounds -/

/-- C6: `getRelevantContext` returns at most `maxCount` active entries (all
non-archived, in descending timestamp order) and at most `floor(maxCount/2)`
recalled entries (given that the external archive index honours its `k`
argument); the recalled list is empty whenever the index is absent or the
search throws. -/
theorem getRelevantContext_bounds (s : StoreState) (maxMemories : Nat)
    (archiveIndex : Option Unit) (searchResult : Except Unit (List String))
    (hk : ∀ docs, searchResult = .ok docs → docs.length ≤ maxMemories / 2) :
    (getRelevantContext s maxMemories archiveIndex searchResult).1.length ≤ maxMemories ∧
    (getRelevantContext s maxMemories archiveIndex searchResult).2.length ≤ maxMemories / 2 ∧
    (∀ m ∈ (getRelevantContext s maxMemories archiveIndex searchResult).1,
       m.isArchived = false) ∧
    List.Pairwise tsDesc (getRelevantContext s maxMemories archiveIndex searchResult).1 ∧
    (archiveIndex = none →
      (getRelevantContext s maxMemories archiveIndex searchResult).2 = []) ∧
    (searchResult = .error () →
      (getRelevantContext s maxMemories archiveIndex searchResult).2 = []) := by
  refine ⟨?_, ?_, ?_, ?_, ?_, ?_⟩
  · show (List.take maxMemories _).length ≤ maxMemories
    rw [List.length_take]
    exact inf_le_left
  · show (recallFromArchive s archiveIndex searchResult).length ≤ maxMemories / 2
    unfold recallFromArchive
    cases archiveIndex with
    | none => simp
    | some u =>
      cases searchResult with
      | error e => simp
      | ok docs =>
        simp only
        exact le_trans (List.length_filterMap_le _ _) (hk docs rfl)
  · intro m hm
    have h1 : m ∈ List.insertionSort tsDesc
        (s.rows.filter (fun x => !x.isArchived)) := List.mem_of_mem_take hm
    have h2 : m ∈ s.rows.filter (fun x => !x.isArchived) :=
      (List.perm_insertionSort tsDesc _).mem_iff.mp h1
    have h3 := (List.mem_filter.mp h2).2
    simpa using h3
  · exact (List.sorted_insertionSort tsDesc _).sublist (List.take_sublist _ _)
  · intro h
    subst h
    rfl
  · intro h
    subst h
    show recallFromArchive s archiveIndex (.error ()) = []
    cases archiveIndex <;> rfl

/-- A two-row store (one active, one archived) for the C6 witness. -/
def c6Store : StoreState :=
  ⟨[{ id := 0, content := "User: likes hiking", timestamp := "2026-01-01",
      importanceScore := .num 6, memoryType := .preference, isArchived := false,
      metadata := [] },
    { id := 1, content := "User: name is Ada", timestamp := "2026-01-02",
      importanceScore := .num 9, memoryType := .preference, isArchived := true,
      metadata := [] }], 2⟩

/-- Witness for C6 at a concrete store, index and search result. -/
theorem getRelevantContext_bounds_witness :
    (∀ docs, (Except.ok ["User: name is Ada"] : Except Unit (List String)) = .ok docs →
       docs.length ≤ 5 / 2) ∧
    (getRelevantContext c6Store 5 (some ()) (.ok ["User: name is Ada"])).1.length ≤ 5 ∧
    (getRelevantContext c6Store 5 (some ()) (.ok ["User: name is Ada"])).2.length ≤ 5 / 2 :=
  ⟨fun docs h => by cases h; decide,
   (getRelevantContext_bounds c6Store 5 (some ()) (.ok ["User: name is Ada"])
     (fun docs h => by cases h; decide)).1,
   (getRelevantContext_bounds c6Store 5 (some ()) (.ok ["User: name is Ada"])
     (fun docs h => by cases h; decide)).2.1⟩

/-! ### C7: archiving is monotonic, entries never individually deleted -/

/-- Some row with this id is archived. -/
def idArchivedIn (s : StoreState) (i : Nat) : Prop :=
  ∃ m ∈ s.rows, m.id = i ∧ m.isArchived = true

instance : ∀ s i, Decidable (idArchivedIn s i) := fun s i =>
  inferInstanceAs (Decidable (∃ m ∈ s.rows, m.id = i ∧ m.isArchived = true))

/-- The per-id archive invariant threaded through operation sequences:
well-formedness, the id is already allocated, and every row carrying it is
archived. -/
def ArchInv (s : StoreState) (i : Nat) : Prop :=
  WF s ∧ i < s.nextId ∧ ∀ m ∈ s.rows, m.id = i → m.isArchived = true

/-- Row-mapping operations that keep ids and never clear the archive flag
preserve the invariant. -/
lemma archInv_map (s : StoreState) (i : Nat) (f : Memory → Memory)
    (hid : ∀ m, (f m).id = m.id)
    (harchmap : ∀ m, m.isArchived = true → (f m).isArchived = true)
    (h : ArchInv s i) : ArchInv ⟨s.rows.map f, s.nextId⟩ i := by
  obtain ⟨⟨hnd, hlt⟩, hi, harch⟩ := h
  have hmapid : (s.rows.map f).map Memory.id = s.rows.map Memory.id := by
    rw [List.map_map]
    exact List.map_congr_left (fun m _ => hid m)
  refine ⟨⟨?_, ?_⟩, hi, ?_⟩
  · rw [hmapid]; exact hnd
  · intro m hm
    obtain ⟨m0, hm0, rfl⟩ := List.mem_map.mp hm
    rw [hid m0]
    exact hlt m0 hm0
  · intro m hm hmi
    obtain ⟨m0, hm0, rfl⟩ := List.mem_map.mp hm
    rw [hid m0] at hmi
    exact harchmap m0 (harch m0 hm0 hmi)

/-- One store operation preserves the invariant. -/
lemma archInv_step (s : StoreState) (op : StoreOp) (i : Nat) (h : ArchInv s i) :
    ArchInv (applyOp s op) i := by
  obtain ⟨⟨hnd, hlt⟩, hi, harch⟩ := h
  cases op with
  | add d =>
    refine ⟨⟨?_, ?_⟩, ?_, ?_⟩
    · simp only [applyOp, addMemory, List.map_append, List.map_cons, List.map_nil]
      rw [List.nodup_append]
      refine ⟨hnd, List.nodup_singleton _, ?_⟩
      intro a ha hb
      rw [List.mem_singleton] at hb
      subst hb
      obtain ⟨m, hm, hid⟩ := List.mem_map.mp ha
      exact absurd (hid ▸ hlt m hm) (lt_irrefl _)
    · intro m hm
      simp only [applyOp, addMemory] at hm ⊢
      rcases List.mem_append.mp hm with h1 | h1
      · exact Nat.lt_succ_of_lt (hlt m h1)
      · rw [List.mem_singleton] at h1
        subst h1
        exact Nat.lt_succ_self _
    · simp only [applyOp, addMemory]
      exact Nat.lt_succ_of_lt hi
    · intro m hm hmi
      simp only [applyOp, addMemory] at hm
      rcases List.mem_append.mp hm with h1 | h1
      · exact harch m h1 hmi
      · rw [List.mem_singleton] at h1
        subst h1
        simp only at hmi
        omega
  | archive ids =>
    by_cases hids : ids.isEmpty
    · simpa [applyOp, archiveMemories, hids] using ⟨⟨hnd, hlt⟩, hi, harch⟩
    · have heq : applyOp s (.archive ids) = ⟨s.rows.map (fun m =>
          if decide (m.id ∈ ids) then { m with isArchived := true } else m), s.nextId⟩ := by
        show archiveMemories s ids = _
        unfold archiveMemories
        rw [if_neg hids]
      rw [heq]
      refine archInv_map s i _ ?_ ?_ ⟨⟨hnd, hlt⟩, hi, harch⟩
      · intro m; by_cases hmem : decide (m.id ∈ ids) = true <;> simp [hmem]
      · intro m hm; by_cases hmem : decide (m.id ∈ ids) = true <;> simp [hmem, hm]
  | updateScore j sc =>
    refine archInv_map s i _ ?_ ?_ ⟨⟨hnd, hlt⟩, hi, harch⟩
    · intro m; by_cases hmem : m.id = j <;> simp [hmem]
    · intro m hm; by_cases hmem : m.id = j <;> simp [hmem, hm]
  | getActive l => exact ⟨⟨hnd, hlt⟩, hi, harch⟩
  | getArchived l => exact ⟨⟨hnd, hlt⟩, hi, harch⟩
  | search q b l => exact ⟨⟨hnd, hlt⟩, hi, harch⟩
  | count b => exact ⟨⟨hnd, hlt⟩, hi, harch⟩
  | clear =>
    refine ⟨⟨by simp [applyOp, clearAllMemories], ?_⟩, hi, ?_⟩
    · intro m hm; simp [applyOp, clearAllMemories] at hm
    · intro m hm; simp [applyOp, clearAllMemories] at hm

/-- A sequence of store operations preserves the invariant. -/
lemma archInv_seq (s : StoreState) (i : Nat) (h : ArchInv s i) :
    ∀ ops : List StoreOp, ArchInv (applySeq s ops) i := by
  intro ops
  induction ops generalizing s with
  | nil => exact h
  | cons op rest ih => exact ih _ (archInv_step s op i h)

/-- C7: over every sequence of store operations on a well-formed store, once
some row with a given id is archived, every later row with that id is still
archived (no operation resets the flag); and no operation except the bulk
`clear` removes a row (each surviving row keeps its id). -/
theorem archiving_monotonic (s : StoreState) (h : WF s) :
    (∀ (ops : List StoreOp) (i : Nat), idArchivedIn s i →
       ∀ m ∈ (applySeq s ops).rows, m.id = i → m.isArchived = true) ∧
    (∀ op : StoreOp, op ≠ .clear →
       ∀ m ∈ s.rows, ∃ m2 ∈ (applyOp s op).rows, m2.id = m.id) := by
  constructor
  · intro ops i hai
    obtain ⟨m0, hm0, hid0, harch0⟩ := hai
    have hstart : ArchInv s i := by
      refine ⟨h, hid0 ▸ h.2 m0 hm0, ?_⟩
      intro m hm hmi
      have : m = m0 :=
        List.inj_on_of_nodup_map h.1 hm hm0 (hmi.trans hid0.symm)
      rw [this]
      exact harch0
    exact (archInv_seq s i hstart ops).2.2
  · intro op hop m hm
    cases op with
    | add d =>
      exact ⟨m, by simp only [applyOp, addMemory]; exact List.mem_append_left _ hm, rfl⟩
    | archive ids =>
      by_cases hids : ids.isEmpty
      · exact ⟨m, by simp only [applyOp, archiveMemories, hids, if_pos]; exact hm, rfl⟩
      · have heq : (applyOp s (.archive ids)).rows = s.rows.map (fun x =>
            if decide (x.id ∈ ids) then { x with isArchived := true } else x) := by
          show (archiveMemories s ids).rows = _
          unfold archiveMemories
          rw [if_neg hids]
        refine ⟨(fun x => if decide (x.id ∈ ids) then { x with isArchived := true } else x) m,
          ?_, ?_⟩
        · rw [heq]
          exact List.mem_map_of_mem _ hm
        · by_cases hmem : decide (m.id ∈ ids) = true <;> simp [hmem]
    | updateScore j sc =>
      refine ⟨(fun x => if x.id = j then { x with importanceScore := sc } else x) m,
        List.mem_map_of_mem _ hm, ?_⟩
      by_cases hmem : m.id = j <;> simp [hmem]
    | getActive l => exact ⟨m, hm, rfl⟩
    | getArchived l => exact ⟨m, hm, rfl⟩
    | search q b l => exact ⟨m, hm, rfl⟩
    | count b => exact ⟨m, hm, rfl⟩
    | clear => exact absurd rfl hop

/-- Store and operation sequence for the C7 witness: id 0 starts archived and
survives a score update, an archive call, a read and an insert — still
archived. -/
def c7Store : StoreState :=
  ⟨[{ id := 0, content := "User: old fact", timestamp := "2026-01-01",
      importanceScore := .num 3, memoryType := .preference, isArchived := true,
      metadata := [] },
    { id := 1, content := "User: new fact", timestamp := "2026-01-02",
      importanceScore := .num 8, memoryType := .preference, isArchived := false,
      metadata := [] }], 2⟩

/-- Operation sequence for the C7 witness. -/
def c7Ops : List StoreOp :=
  [.updateScore 0 (.num 5), .archive [1], .getActive none,
   .add { content := "User: third fact", timestamp := "2026-01-03",
          importanceScore := .num 6, memoryType := .preference,
          isArchived := false, metadata := [] }]

/-- Witness for C7 at a concrete store and operation sequence. -/
theorem archiving_monotonic_witness :
    WF c7Store ∧ idArchivedIn c7Store 0 ∧
    (∀ m ∈ (applySeq c7Store c7Ops).rows, m.id = 0 → m.isArchived = true) :=
  ⟨by decide, by decide,
   (archiving_monotonic c7Store (by decide)).1 c7Ops 0 (by decide)⟩

/-! ### C2: consolidation bounds the active set -/

/-- Counting filters: a pointwise-stronger predicate keeps fewer elements. -/
lemma length_filter_le_of_imp {α : Type} (p q : α → Bool) :
    ∀ l : List α, (∀ a ∈ l, p a = true → q a = true) →
      (l.filter p).length ≤ (l.filter q).length := by
  intro l
  induction l with
  | nil => intro _; simp
  | cons a t ih =>
    intro h
    have ht : ∀ x ∈ t, p x = true → q x = true :=
      fun x hx hpx => h x (List.mem_cons_of_mem a hx) hpx
    cases hq : q a with
    | false =>
      have hp : p a = false := by
        cases hp : p a
        · rfl
        · exact absurd (h a (List.mem_cons_self a t) hp) (by simp [hq])
      simp only [List.filter_cons, hp, hq, Bool.false_eq_true, if_false]
      exact ih ht
    | true =>
      cases hp : p a with
      | false =>
        simp only [List.filter_cons, hp, hq, Bool.false_eq_true, if_false, if_true,
          List.length_cons]
        exact Nat.le_succ_of_le (ih ht)
      | true =>
        simp only [List.filter_cons, hp, hq, if_true, List.length_cons]
        exact Nat.succ_le_succ (ih ht)

/-- Removing a duplicate-free sublist `S` of a duplicate-free list `l` removes
exactly `S.length` elements. -/
lemma length_filter_not_mem_add_le {α : Type} [DecidableEq α] :
    ∀ (l S : List α), l.Nodup → S.Nodup → S ⊆ l →
      (l.filter (fun a => !(decide (a ∈ S)))).length + S.length ≤ l.length := by
  intro l
  induction l with
  | nil =>
    intro S _ _ hsub
    rw [List.subset_nil.mp hsub]
    simp
  | cons a t ih =>
    intro S hl hS hsub
    have hat : a ∉ t := (List.nodup_cons.mp hl).1
    have ht : t.Nodup := (List.nodup_cons.mp hl).2
    by_cases ha : a ∈ S
    · have hSe : (S.erase a).Nodup := hS.erase a
      have hSsub : S.erase a ⊆ t := by
        intro x hx
        have hxa : x ≠ a := (hS.mem_erase_iff.mp hx).1
        have hxS : x ∈ S := (hS.mem_erase_iff.mp hx).2
        exact (List.mem_cons.mp (hsub hxS)).resolve_left hxa
      have hfc : t.filter (fun x => !(decide (x ∈ S))) =
          t.filter (fun x => !(decide (x ∈ S.erase a))) := by
        apply List.filter_congr
        intro x hx
        have hxa : x ≠ a := fun e => hat (e ▸ hx)
        simp [hS.mem_erase_iff, hxa]
      have hlen : S.length = (S.erase a).length + 1 := by
        rw [List.length_erase_of_mem ha]
        have : 0 < S.length := List.length_pos_of_mem ha
        omega
      have := ih (S.erase a) ht hSe hSsub
      have hda : (!(decide (a ∈ S))) = false := by simp [ha]
      simp only [List.filter_cons, hda, Bool.false_eq_true, if_false, List.length_cons]
      rw [hfc, hlen]
      omega
    · have hSsub : S ⊆ t :=
        fun x hx => (List.mem_cons.mp (hsub hx)).resolve_left (fun e => ha (e ▸ hx))
      have := ih S ht hS hSsub
      have hda : (!(decide (a ∈ S))) = true := by simp [ha]
      simp only [List.filter_cons, hda, if_true, List.length_cons]
      omega

/-- Archiving by id turns the active row set into the active rows whose id is
not listed. -/
lemma activeCount_archiveMemories (s : StoreState) (ids : List Nat) :
    activeCount (archiveMemories s ids) =
      ((s.rows.filter (fun m => !m.isArchived)).filter
        (fun m => !(decide (m.id ∈ ids)))).length := by
  unfold archiveMemories activeCount
  by_cases hids : ids.isEmpty
  · rw [if_pos hids]
    have : ids = [] := List.isEmpty_iff.mp hids
    subst this
    simp
  · rw [if_neg hids]
    simp only
    rw [List.filter_map]
    rw [List.length_map]
    rw [List.filter_filter]
    apply congrArg List.length
    apply List.filter_congr
    intro m _
    by_cases hm : decide (m.id ∈ ids) = true <;>
      by_cases ha : m.isArchived <;>
        simp [Function.comp, hm, ha]

/-- The active list returned by `getActiveMemories` is a permutation of the
non-archived rows. -/
lemma getActiveMemories_perm (s : StoreState) :
    (getActiveMemories s none).Perm (s.rows.filter (fun m => !m.isArchived)) :=
  List.perm_insertionSort tsDesc _

/-- The ids of the active list are duplicate-free when the row ids are. -/
lemma getActiveMemories_nodup_id (s : StoreState)
    (h : (s.rows.map Memory.id).Nodup) :
    ((getActiveMemories s none).map Memory.id).Nodup := by
  have h1 : ((s.rows.filter (fun m => !m.isArchived)).map Memory.id).Nodup :=
    ((List.filter_sublist s.rows).map Memory.id).nodup h
  exact ((getActiveMemories_perm s).map Memory.id).symm.nodup h1

/-- The `remaining` list says exactly "importance not below threshold". -/
lemma remainingOf_eq (cfg : ManagerConfig) (A : List Memory) :
    remainingOf cfg A =
      A.filter (fun m => !(m.importanceScore.ltR cfg.importanceThreshold)) := by
  unfold remainingOf
  apply List.filter_congr
  intro x hx
  by_cases hs : x.importanceScore.ltR cfg.importanceThreshold
  · have hxlow : x ∈ lowImportanceOf cfg A := List.mem_filter.mpr ⟨hx, hs⟩
    simp [hxlow, hs]
  · have hxlow : x ∉ lowImportanceOf cfg A :=
      fun hmem => hs (List.mem_filter.mp hmem).2
    simp [hxlow, hs]

/-- Core counting bound of the two-strategy consolidation policy: after
removing (by id) everything `selectMemoriesToArchive` picked, at most
`maxActiveMemories` of the active list remains. -/
lemma selectMemoriesToArchive_bound (cfg : ManagerConfig) (A : List Memory)
    (hA : (A.map Memory.id).Nodup) :
    (A.filter (fun m =>
        !(decide (m.id ∈ (selectMemoriesToArchive cfg A).map Memory.id)))).length
      ≤ cfg.maxActiveMemories := by
  have hAnd : A.Nodup := hA.of_map _
  have hremNodup : (remainingOf cfg A).Nodup := hAnd.filter _
  by_cases hover : (remainingOf cfg A).length > cfg.maxActiveMemories
  · have hsel : selectMemoriesToArchive cfg A =
        lowImportanceOf cfg A ++ ((remainingOf cfg A).insertionSort tsAsc).take
          ((remainingOf cfg A).length - cfg.maxActiveMemories) := by
      unfold selectMemoriesToArchive
      exact if_pos hover
    set S := ((remainingOf cfg A).insertionSort tsAsc).take
      ((remainingOf cfg A).length - cfg.maxActiveMemories) with hS
    have hsortPerm : ((remainingOf cfg A).insertionSort tsAsc).Perm (remainingOf cfg A) :=
      List.perm_insertionSort tsAsc (remainingOf cfg A)
    have hSnodup : S.Nodup :=
      (List.take_sublist _ _).nodup (hsortPerm.symm.nodup hremNodup)
    have hSsub : S ⊆ remainingOf cfg A :=
      List.Subset.trans (List.take_subset _ _) hsortPerm.subset
    have hSlen : S.length = (remainingOf cfg A).length - cfg.maxActiveMemories := by
      rw [hS, List.length_take, hsortPerm.length_eq]
      exact min_eq_left (Nat.sub_le _ _)
    have hkept : ∀ m ∈ A,
        (!(decide (m.id ∈ (selectMemoriesToArchive cfg A).map Memory.id))) = true →
        ((!(m.importanceScore.ltR cfg.importanceThreshold)) &&
          (!(decide (m ∈ S)))) = true := by
      intro m hmA hmk
      rw [hsel] at hmk
      simp only [Bool.not_eq_eq_eq_not, Bool.not_true, decide_eq_false_iff_not,
        List.mem_map, not_exists, not_and] at hmk
      simp only [Bool.and_eq_true, Bool.not_eq_eq_eq_not, Bool.not_true,
        decide_eq_false_iff_not]
      constructor
      · cases hlt : m.importanceScore.ltR cfg.importanceThreshold with
        | false => rfl
        | true =>
          have hm_low : m ∈ lowImportanceOf cfg A ++ S :=
            List.mem_append_left _ (List.mem_filter.mpr ⟨hmA, hlt⟩)
          exact (hmk m hm_low rfl).elim
      · intro hmS
        exact hmk m (List.mem_append_right _ hmS) rfl
    have h1 := length_filter_le_of_imp _ _ A hkept
    have h2 : A.filter (fun m => (!(m.importanceScore.ltR cfg.importanceThreshold)) &&
          (!(decide (m ∈ S)))) =
        (remainingOf cfg A).filter (fun m => !(decide (m ∈ S))) := by
      rw [remainingOf_eq, List.filter_filter]
      apply List.filter_congr
      intro x _
      by_cases hx1 : x.importanceScore.ltR cfg.importanceThreshold <;>
        by_cases hx2 : x ∈ S <;> simp [hx1, hx2]
    have h3 := length_filter_not_mem_add_le (remainingOf cfg A) S hremNodup hSnodup hSsub
    rw [h2] at h1
    omega
  · have hsel : selectMemoriesToArchive cfg A = lowImportanceOf cfg A := by
      unfold selectMemoriesToArchive
      exact if_neg hover
    have hkept : ∀ m ∈ A,
        (!(decide (m.id ∈ (selectMemoriesToArchive cfg A).map Memory.id))) = true →
        (!(m.importanceScore.ltR cfg.importanceThreshold)) = true := by
      intro m hm hmk
      rw [hsel] at hmk
      simp only [Bool.not_eq_eq_eq_not, Bool.not_true, decide_eq_false_iff_not,
        List.mem_map, not_exists, not_and] at hmk
      simp only [Bool.not_eq_eq_eq_not, Bool.not_true]
      cases hlt : m.importanceScore.ltR cfg.importanceThreshold with
      | false => rfl
      | true => exact (hmk m (List.mem_filter.mpr ⟨hm, hlt⟩) rfl).elim
    have h1 := length_filter_le_of_imp _ _ A hkept
    rw [← remainingOf_eq] at h1
    exact h1.trans (Nat.le_of_not_lt hover)

/-- `consolidateMemories` always leaves at most `maxActiveMemories` active
rows (when it does not archive, the active set was already small enough). -/
lemma consolidateMemories_bound (cfg : ManagerConfig) (s : StoreState)
    (h : (s.rows.map Memory.id).Nodup) :
    activeCount (consolidateMemories cfg s) ≤ cfg.maxActiveMemories := by
  have hperm := getActiveMemories_perm s
  have hcount : activeCount s = (getActiveMemories s none).length := hperm.length_eq.symm
  unfold consolidateMemories
  by_cases hempty : (getActiveMemories s none).isEmpty
  · rw [if_pos hempty]
    have hz : (getActiveMemories s none).length = 0 := by
      rw [List.isEmpty_iff.mp hempty]
      rfl
    show activeCount s ≤ _
    omega
  · rw [if_neg hempty]
    by_cases harch : (selectMemoriesToArchive cfg (getActiveMemories s none)).isEmpty
    · rw [if_pos harch]
      show activeCount s ≤ _
      by_cases hover : (remainingOf cfg (getActiveMemories s none)).length >
          cfg.maxActiveMemories
      · exfalso
        have hsel2 : selectMemoriesToArchive cfg (getActiveMemories s none) =
            lowImportanceOf cfg (getActiveMemories s none) ++
            ((remainingOf cfg (getActiveMemories s none)).insertionSort tsAsc).take
              ((remainingOf cfg (getActiveMemories s none)).length -
                cfg.maxActiveMemories) := by
          unfold selectMemoriesToArchive
          exact if_pos hover
        rw [hsel2, List.isEmpty_iff, List.append_eq_nil] at harch
        have htake := harch.2
        have hlen := congrArg List.length htake
        rw [List.length_take,
          (List.perm_insertionSort tsAsc (remainingOf cfg (getActiveMemories s none))).length_eq]
          at hlen
        simp only [List.length_nil] at hlen
        omega
      · have hsel2 : selectMemoriesToArchive cfg (getActiveMemories s none) =
            lowImportanceOf cfg (getActiveMemories s none) := by
          unfold selectMemoriesToArchive
          exact if_neg hover
        rw [hsel2, List.isEmpty_iff] at harch
        have hremAll : remainingOf cfg (getActiveMemories s none) =
            getActiveMemories s none := by
          unfold remainingOf
          rw [harch]
          simp
        rw [hremAll] at hover
        omega
    · rw [if_neg harch]
      rw [activeCount_archiveMemories]
      rw [← (hperm.filter _).length_eq]
      exact selectMemoriesToArchive_bound cfg _ (getActiveMemories_nodup_id s h)

/-- The consolidation check leaves at most `maxActiveMemories` active rows:
either a trigger fired and `consolidateMemories` enforced the bound, or the
count trigger did not fire, which is the bound itself. -/
lemma checkAndConsolidate_bound (cfg : ManagerConfig) (s : StoreState)
    (h : (s.rows.map Memory.id).Nodup) :
    activeCount (checkAndConsolidate cfg s) ≤ cfg.maxActiveMemories := by
  unfold checkAndConsolidate
  by_cases h1 : (getActiveMemories s none).length > cfg.maxActiveMemories
  · rw [if_pos h1]
    exact consolidateMemories_bound cfg s h
  · rw [if_neg h1]
    by_cases h2 : ((((getActiveMemories s none).map
        (fun m => cfg.countTokens m.content)).sum : Rat) >
        (cfg.maxContextLength : Rat) * cfg.consolidationTrigger)
    · rw [if_pos h2]
      exact consolidateMemories_bound cfg s h
    · rw [if_neg h2]
      have := (getActiveMemories_perm s).length_eq
      show activeCount s ≤ _
      unfold activeCount
      omega

/-- Inserting a row preserves store well-formedness (the new row gets the
fresh AUTOINCREMENT id). -/
lemma WF_addMemory (s : StoreState) (d : MemoryData) (h : WF s) :
    WF (addMemory s d).2 := by
  obtain ⟨hnd, hlt⟩ := h
  constructor
  · simp only [addMemory, List.map_append, List.map_cons, List.map_nil]
    rw [List.nodup_append]
    refine ⟨hnd, List.nodup_singleton _, ?_⟩
    intro x hx hb
    rw [List.mem_singleton] at hb
    subst hb
    obtain ⟨m, hm, hid⟩ := List.mem_map.mp hx
    exact absurd (hid ▸ hlt m hm) (lt_irrefl _)
  · intro m hm
    simp only [addMemory] at hm ⊢
    rcases List.mem_append.mp hm with h1 | h1
    · exact Nat.lt_succ_of_lt (hlt m h1)
    · rw [List.mem_singleton] at h1
      subst h1
      exact Nat.lt_succ_self _

/-- C2: after the consolidation check, the active set never exceeds
`maxActiveMemories`: this holds after `checkAndConsolidate` on any well-formed
store, and in particular after every `addInteraction` that created an entry
(the check runs at its end). -/
theorem consolidation_invariant (cfg : ManagerConfig) (s : StoreState) (h : WF s) :
    activeCount (checkAndConsolidate cfg s) ≤ cfg.maxActiveMemories ∧
    (∀ (oracle : Oracle) (u a : String) (md : List (String × String)) (now : String)
       (m : Memory), (addInteraction cfg oracle s u a md now).1 = some m →
       activeCount (addInteraction cfg oracle s u a md now).2 ≤ cfg.maxActiveMemories) := by
  refine ⟨checkAndConsolidate_bound cfg s h.1, ?_⟩
  intro oracle u a md now m hm
  unfold addInteraction at hm ⊢
  cases he : extractPersonalInformation oracle u with
  | none =>
    rw [he] at hm
    exact absurd hm (by simp)
  | some info =>
    exact checkAndConsolidate_bound cfg _ (WF_addMemory s _ h).1

/-- Config for the C2 witness: capacity 2. -/
def c2Cfg : ManagerConfig :=
  { maxActiveMemories := 2, importanceThreshold := 5, maxContextLength := 4000,
    consolidationTrigger := 1, countTokens := String.length }

/-- Store for the C2 witness: three active rows, one below the threshold. -/
def c2Store : StoreState :=
  ⟨[{ id := 0, content := "User: likes tea", timestamp := "2026-01-01",
      importanceScore := .num 3, memoryType := .preference, isArchived := false,
      metadata := [] },
    { id := 1, content := "User: name is Ada", timestamp := "2026-01-02",
      importanceScore := .num 8, memoryType := .preference, isArchived := false,
      metadata := [] },
    { id := 2, content := "User: works in IT", timestamp := "2026-01-03",
      importanceScore := .num 9, memoryType := .preference, isArchived := false,
      metadata := [] }], 3⟩

/-- Witness for C2 at a concrete over-capacity store. -/
theorem consolidation_invariant_witness :
    WF c2Store ∧
    activeCount (checkAndConsolidate c2Cfg c2Store) ≤ c2Cfg.maxActiveMemories :=
  ⟨by decide, (consolidation_invariant c2Cfg c2Store (by decide)).1⟩

end LangGraphAgent
